import Mathlib

/-!
Verification of the statistics core of the terracotta web-service scaffold.

The model is a shallow embedding of `src/stats/worker.rs`, `src/stats/middleware.rs`,
`src/stats/state.rs` and `src/stats/handlers.rs`:

* `NaiveDateTime` timestamps are modelled as integers (seconds in the worker and
  handlers, microseconds in the middleware, as each context uses them);
* `u64` fields are modelled as `Nat`, with `u64::saturating_add` made explicit
  (`satAdd`) and the `as u64` cast made explicit (`castU64`, reduction mod 2^64);
* the `f64` running average is modelled as `ℚ` (exact arithmetic; `f64::mul_add`
  is exact fused multiply-add, so the rational model follows the same formula);
* `VecDeque` ring buffers are lists, newest first (`push_front` is cons,
  `pop_back` drops the last element);
* fallible operations (`Option::unwrap` on chrono and allocator results) are
  modelled with `Option`, `none` standing for a panic.
-/

/-- Largest value representable in a 64-bit unsigned integer. -/
def U64MAX : Nat := 2 ^ 64 - 1

/-- Model of `u64::saturating_add`: addition capped at `U64MAX`. -/
def satAdd (a b : Nat) : Nat := min (a + b) U64MAX

/-- Model of the `i64 as u64` wrapping cast: reduction modulo `2 ^ 64`. -/
def castU64 (i : Int) : Nat := (i % (2 ^ 64 : Int)).toNat

/-- Model of `StatsForPeriod` (worker.rs lines 56-74): running aggregate of a
stream of values.  `started_at` is a timestamp in seconds, `average` models the
`f64` field exactly as a rational. -/
structure StatsForPeriod where
  started_at : Int
  average    : ℚ
  maximum    : Nat
  minimum    : Nat
  count      : Nat
deriving DecidableEq, Repr

/-- Model of `StatsForPeriod::default()`: zero everywhere, except that SmartDefault sets
`started_at` to the current time, which the model passes in as `now`. -/
def StatsForPeriod.sdefault (now : Int) : StatsForPeriod :=
  { started_at := now, average := 0, maximum := 0, minimum := 0, count := 0 }

/-- Model of `StatsForPeriod::initialize(value)` (worker.rs lines 87-96): the value is
applied to the average, maximum and minimum, and the count is set to 1; the
remaining field comes from `Default` (so `started_at = now`).  The `value as
f64` cast is modelled as exact here, which is valid for values below `2 ^ 53`;
`initStatsF` further below models the rounding of the cast faithfully. -/
def initStats (now : Int) (value : Nat) : StatsForPeriod :=
  { StatsForPeriod.sdefault now with
      average := (value : ℚ), maximum := value, minimum := value, count := 1 }

/-- Model of `StatsForPeriod::update(&mut self, stats)` (worker.rs lines 119-132).
Field for field:
* `minimum` is replaced when `stats.minimum < self.minimum && stats.count > 0`
  or `self.count == 0`;
* `maximum` is replaced when `stats.maximum > self.maximum`;
* `count` becomes `self.count.saturating_add(stats.count)`;
* when the new count and `stats.count` are both positive, `average` becomes
  `self.average.mul_add(1 - weight, stats.average * weight)` with
  `weight = stats.count / new_count`;
* `started_at` is untouched.
The f64 average arithmetic is modelled exactly over the rationals (`mul_add`
is a single fused operation); claims about the average are settled in exact
arithmetic. -/
def StatsForPeriod.update (self stats : StatsForPeriod) : StatsForPeriod :=
  let newMin : Nat :=
    if (stats.minimum < self.minimum ∧ 0 < stats.count) ∨ self.count = 0 then
      stats.minimum
    else self.minimum
  let newMax : Nat := if self.maximum < stats.maximum then stats.maximum else self.maximum
  let newCount : Nat := satAdd self.count stats.count
  let newAvg : ℚ :=
    if 0 < newCount ∧ 0 < stats.count then
      let weight : ℚ := (stats.count : ℚ) / (newCount : ℚ)
      self.average * (1 - weight) + stats.average * weight
    else self.average
  { self with minimum := newMin, maximum := newMax, count := newCount, average := newAvg }

/-- Folding a sequence of samples into a fresh aggregate, arrival order:
`fold update (initialize sᵢ) over default()` as done by the worker for the
running per-second accumulators. -/
def foldSamples (now : Int) (xs : List Nat) : StatsForPeriod :=
  xs.foldl (fun acc v => acc.update (initStats now v)) (StatsForPeriod.sdefault now)

/-- The spec predicate of claim C5: a populated aggregate keeps its average
between its minimum and maximum. -/
def AvgBetween (s : StatsForPeriod) : Prop :=
  0 < s.count → (s.minimum : ℚ) ≤ s.average ∧ s.average ≤ (s.maximum : ℚ)

-- Unfolding lemmas for the five fields of `update`.

theorem update_started_at (a b : StatsForPeriod) :
    (a.update b).started_at = a.started_at := rfl

theorem update_count (a b : StatsForPeriod) :
    (a.update b).count = satAdd a.count b.count := rfl

theorem update_minimum (a b : StatsForPeriod) :
    (a.update b).minimum =
      if (b.minimum < a.minimum ∧ 0 < b.count) ∨ a.count = 0 then b.minimum
      else a.minimum := rfl

theorem update_maximum (a b : StatsForPeriod) :
    (a.update b).maximum = if a.maximum < b.maximum then b.maximum else a.maximum := rfl

theorem update_average (a b : StatsForPeriod) :
    (a.update b).average =
      if 0 < satAdd a.count b.count ∧ 0 < b.count then
        a.average * (1 - (b.count : ℚ) / (satAdd a.count b.count : ℚ)) +
          b.average * ((b.count : ℚ) / (satAdd a.count b.count : ℚ))
      else a.average := rfl

theorem satAdd_of_le {a b : Nat} (h : a + b ≤ U64MAX) : satAdd a b = a + b := by
  simp [satAdd, Nat.min_eq_left h]

theorem satAdd_zero_right {a : Nat} (h : a ≤ U64MAX) : satAdd a 0 = a := by
  have := satAdd_of_le (a := a) (b := 0) (by omega)
  simpa using this

theorem satAdd_zero_left {b : Nat} (h : b ≤ U64MAX) : satAdd 0 b = b := by
  have := satAdd_of_le (a := 0) (b := b) (by omega)
  simpa using this

/-- Claim C10: merging a zero-count source into an aggregate leaves the count
and the average unchanged, leaves the minimum unchanged when the target is
populated, but still raises the maximum to the larger of the two maxima — the
maximum guard does not check the source count. -/
theorem c10_zero_count_source (a b : StatsForPeriod)
    (hb : b.count = 0) (ha : a.count ≤ U64MAX) :
    (a.update b).count = a.count ∧
    (a.update b).average = a.average ∧
    (0 < a.count → (a.update b).minimum = a.minimum) ∧
    (a.update b).maximum = max a.maximum b.maximum := by
  refine ⟨?_, ?_, ?_, ?_⟩
  · rw [update_count, hb, satAdd_zero_right ha]
  · rw [update_average]
    simp [hb]
  · intro hpos
    rw [update_minimum]
    rw [if_neg]
    rintro (⟨-, h0⟩ | h0) <;> omega
  · rw [update_maximum, Nat.max_comm, Nat.max_def]
    split <;> split <;> omega

/-- Witness for C10 at a concrete instance: target with count 3, zero-count
source whose stored maximum 99 nevertheless wins. -/
theorem c10_zero_count_source_witness :
    (StatsForPeriod.update ⟨0, 5, 10, 2, 3⟩ ⟨0, 0, 99, 0, 0⟩).count = 3 ∧
    (StatsForPeriod.update ⟨0, 5, 10, 2, 3⟩ ⟨0, 0, 99, 0, 0⟩).average = 5 ∧
    (0 < (3 : Nat) → (StatsForPeriod.update ⟨0, 5, 10, 2, 3⟩ ⟨0, 0, 99, 0, 0⟩).minimum = 2) ∧
    (StatsForPeriod.update ⟨0, 5, 10, 2, 3⟩ ⟨0, 0, 99, 0, 0⟩).maximum = max 10 99 :=
  c10_zero_count_source ⟨0, 5, 10, 2, 3⟩ ⟨0, 0, 99, 0, 0⟩ (by rfl)
    (by show (3 : Nat) ≤ U64MAX; unfold U64MAX; omega)

/-- The claim as frozen is false: a zero-count aggregate with a non-zero stored
minimum is not fixed by merging the default into it (the minimum is zeroed). -/
theorem c6_counterexample :
    StatsForPeriod.update ⟨5, 7, 3, 2, 0⟩ (StatsForPeriod.sdefault 0) ≠ ⟨5, 7, 3, 2, 0⟩ := by
  intro h
  have hmin : (StatsForPeriod.update ⟨5, 7, 3, 2, 0⟩ (StatsForPeriod.sdefault 0)).minimum = 0 := by
    rw [update_minimum]
    simp [StatsForPeriod.sdefault]
  rw [h] at hmin
  exact absurd hmin (by decide)

/-- Claim C6 (amended): for every aggregate with a positive (representable)
count, merging `default()` into it on the right is the identity, and merging it
into `default()` on the left reproduces all statistics fields while keeping the
started_at of the default itself. -/
theorem c6_merge_identity (now : Int) (x : StatsForPeriod)
    (hc : 0 < x.count) (hle : x.count ≤ U64MAX) :
    x.update (StatsForPeriod.sdefault now) = x ∧
    (StatsForPeriod.sdefault now).update x = { x with started_at := now } := by
  have hq : ((x.count : ℚ)) ≠ 0 := by
    exact_mod_cast Nat.pos_iff_ne_zero.mp hc
  constructor
  · obtain ⟨s, avg, mx, mn, c⟩ := x
    simp only at hc hle
    have hne : c ≠ 0 := by omega
    simp [StatsForPeriod.update, StatsForPeriod.sdefault, satAdd_zero_right hle, hne]
  · obtain ⟨s, avg, mx, mn, c⟩ := x
    simp only at hc hle hq
    simp only [StatsForPeriod.update, StatsForPeriod.sdefault, satAdd_zero_left hle,
      StatsForPeriod.mk.injEq]
    refine ⟨trivial, ?_, ?_, by simp, trivial⟩
    · rw [if_pos ⟨hc, hc⟩, div_self hq]
      ring
    · split <;> omega

/-- Witness for the amended C6 at a populated aggregate. -/
theorem c6_merge_identity_witness :
    StatsForPeriod.update ⟨3, 4, 5, 2, 1⟩ (StatsForPeriod.sdefault 0) = ⟨3, 4, 5, 2, 1⟩ ∧
    (StatsForPeriod.sdefault 0).update ⟨3, 4, 5, 2, 1⟩ =
      { (⟨3, 4, 5, 2, 1⟩ : StatsForPeriod) with started_at := 0 } :=
  c6_merge_identity 0 ⟨3, 4, 5, 2, 1⟩ (by decide)
    (by show (1 : Nat) ≤ U64MAX; unfold U64MAX; omega)

theorem U64MAX_pos : 0 < U64MAX := by norm_num [U64MAX]

theorem satAdd_pos_iff {a b : Nat} : 0 < satAdd a b ↔ 0 < a + b := by
  unfold satAdd
  rw [Nat.lt_min]
  exact ⟨fun h => h.1, fun h => ⟨h, U64MAX_pos⟩⟩

theorem le_satAdd_right {a b : Nat} (h : b ≤ U64MAX) : b ≤ satAdd a b :=
  le_min (Nat.le_add_left b a) h

-- Facts about folding `Nat.max` and `Nat.min` over a list.

theorem foldl_max_base_le (l : List Nat) : ∀ a, a ≤ l.foldl Nat.max a := by
  induction l with
  | nil => intro a; exact le_refl a
  | cons x t ih =>
    intro a
    exact le_trans (Nat.le_max_left a x) (ih (Nat.max a x))

theorem foldl_max_mem_le (l : List Nat) : ∀ a, ∀ v ∈ l, v ≤ l.foldl Nat.max a := by
  induction l with
  | nil => intro a v hv; cases hv
  | cons x t ih =>
    intro a v hv
    rcases List.mem_cons.mp hv with h | h
    · subst h
      exact le_trans (Nat.le_max_right a v) (foldl_max_base_le t (Nat.max a v))
    · exact ih (Nat.max a x) v h

theorem nat_max_choice (a b : Nat) : Nat.max a b = a ∨ Nat.max a b = b := max_choice a b

theorem nat_min_choice (a b : Nat) : Nat.min a b = a ∨ Nat.min a b = b := min_choice a b

theorem foldl_max_mem_or (l : List Nat) : ∀ a, l.foldl Nat.max a = a ∨ l.foldl Nat.max a ∈ l := by
  induction l with
  | nil => intro a; exact Or.inl rfl
  | cons x t ih =>
    intro a
    rcases ih (Nat.max a x) with h | h
    · rcases nat_max_choice a x with hm | hm
      · exact Or.inl (by rw [List.foldl_cons, h, hm])
      · exact Or.inr (List.mem_cons.mpr (Or.inl (by rw [List.foldl_cons, h, hm])))
    · exact Or.inr (List.mem_cons.mpr (Or.inr h))

theorem foldl_min_base_ge (l : List Nat) : ∀ a, l.foldl Nat.min a ≤ a := by
  induction l with
  | nil => intro a; exact le_refl a
  | cons x t ih =>
    intro a
    exact le_trans (ih (Nat.min a x)) (Nat.min_le_left a x)

theorem foldl_min_mem_ge (l : List Nat) : ∀ a, ∀ v ∈ l, l.foldl Nat.min a ≤ v := by
  induction l with
  | nil => intro a v hv; cases hv
  | cons x t ih =>
    intro a v hv
    rcases List.mem_cons.mp hv with h | h
    · subst h
      exact le_trans (foldl_min_base_ge t (Nat.min a v)) (Nat.min_le_right a v)
    · exact ih (Nat.min a x) v h

theorem foldl_min_mem_or (l : List Nat) : ∀ a, l.foldl Nat.min a = a ∨ l.foldl Nat.min a ∈ l := by
  induction l with
  | nil => intro a; exact Or.inl rfl
  | cons x t ih =>
    intro a
    rcases ih (Nat.min a x) with h | h
    · rcases nat_min_choice a x with hm | hm
      · exact Or.inl (by rw [List.foldl_cons, h, hm])
      · exact Or.inr (List.mem_cons.mpr (Or.inl (by rw [List.foldl_cons, h, hm])))
    · exact Or.inr (List.mem_cons.mpr (Or.inr h))

/-- Running invariant of the sample fold: starting from a populated accumulator
whose count stays representable, the fold tracks count, running max, running
min, and the sum (stated multiplicatively to avoid division). -/
theorem foldSamples_go (now : Int) :
    ∀ (xs : List Nat) (acc : StatsForPeriod),
      0 < acc.count → acc.count + xs.length ≤ U64MAX →
      (xs.foldl (fun a v => a.update (initStats now v)) acc).count = acc.count + xs.length ∧
      (xs.foldl (fun a v => a.update (initStats now v)) acc).maximum
        = xs.foldl Nat.max acc.maximum ∧
      (xs.foldl (fun a v => a.update (initStats now v)) acc).minimum
        = xs.foldl Nat.min acc.minimum ∧
      (xs.foldl (fun a v => a.update (initStats now v)) acc).average
          * ((acc.count + xs.length : Nat) : ℚ)
        = acc.average * (acc.count : ℚ) + (xs.sum : ℚ) := by
  intro xs
  induction xs with
  | nil =>
    intro acc hc hle
    refine ⟨by simp, rfl, rfl, by simp⟩
  | cons v t ih =>
    intro acc hc hle
    simp only [List.length_cons] at hle
    have hc1 : acc.count + 1 ≤ U64MAX := by omega
    have hsat : satAdd acc.count 1 = acc.count + 1 := satAdd_of_le hc1
    set acc1 := acc.update (initStats now v) with hacc1
    have hcount1 : acc1.count = acc.count + 1 := by
      rw [hacc1, update_count]
      exact hsat
    have hmax1 : acc1.maximum = Nat.max acc.maximum v := by
      rw [hacc1, update_maximum]
      show (if acc.maximum < v then v else acc.maximum) = Nat.max acc.maximum v
      split
      · next h => exact (max_eq_right (le_of_lt h)).symm
      · next h => exact (max_eq_left (le_of_not_lt h)).symm
    have hmin1 : acc1.minimum = Nat.min acc.minimum v := by
      rw [hacc1, update_minimum]
      have hk : acc.count ≠ 0 := by omega
      show (if (v < acc.minimum ∧ 0 < 1) ∨ acc.count = 0 then v else acc.minimum)
        = Nat.min acc.minimum v
      rcases Nat.lt_or_ge v acc.minimum with h | h
      · rw [if_pos (Or.inl ⟨h, Nat.one_pos⟩)]
        exact (min_eq_right (le_of_lt h)).symm
      · rw [if_neg (by rintro (⟨h1, -⟩ | h1) <;> omega)]
        exact (min_eq_left h).symm
    have hq1 : ((acc.count + 1 : Nat) : ℚ) ≠ 0 := by
      exact_mod_cast Nat.succ_ne_zero acc.count
    have havg1 : acc1.average * ((acc.count + 1 : Nat) : ℚ)
        = acc.average * (acc.count : ℚ) + (v : ℚ) := by
      rw [hacc1, update_average]
      show (if 0 < satAdd acc.count 1 ∧ 0 < 1 then
              acc.average * (1 - (1 : ℚ) / (satAdd acc.count 1 : ℚ)) +
                (v : ℚ) * ((1 : ℚ) / (satAdd acc.count 1 : ℚ))
            else acc.average) * _ = _
      rw [if_pos ⟨by omega, Nat.one_pos⟩, hsat]
      field_simp
    have hstep : (acc.count + 1) + t.length ≤ U64MAX := by omega
    have hpos1 : 0 < acc1.count := by omega
    obtain ⟨ihc, ihmax, ihmin, ihavg⟩ := ih acc1 hpos1 (by rw [hcount1]; exact hstep)
    refine ⟨?_, ?_, ?_, ?_⟩
    · rw [List.foldl_cons, ← hacc1, ihc, hcount1, List.length_cons]
      omega
    · rw [List.foldl_cons, ← hacc1, ihmax, hmax1, List.foldl_cons]
    · rw [List.foldl_cons, ← hacc1, ihmin, hmin1, List.foldl_cons]
    · rw [List.foldl_cons, ← hacc1]
      have hlen2 : acc1.count + t.length = acc.count + (v :: t).length := by
        rw [hcount1, List.length_cons]
        omega
      rw [hlen2] at ihavg
      rw [ihavg, hcount1, havg1]
      push_cast [List.sum_cons]
      ring

/-- Claim C4: folding a non-empty sequence of values into a fresh aggregate in
arrival order yields the length as count, the largest value as maximum, the
smallest as minimum, and the exact arithmetic mean as average (exact
arithmetic; counts stay within `u64`). -/
theorem c4_fold_statistics (now : Int) (x : Nat) (rest : List Nat)
    (hlen : (x :: rest).length ≤ U64MAX) :
    (foldSamples now (x :: rest)).count = (x :: rest).length ∧
    ((foldSamples now (x :: rest)).maximum ∈ x :: rest ∧
      ∀ v ∈ x :: rest, v ≤ (foldSamples now (x :: rest)).maximum) ∧
    ((foldSamples now (x :: rest)).minimum ∈ x :: rest ∧
      ∀ v ∈ x :: rest, (foldSamples now (x :: rest)).minimum ≤ v) ∧
    (foldSamples now (x :: rest)).average
      = (((x :: rest).sum : ℚ)) / (((x :: rest).length : ℚ)) := by
  have hone : (1 : Nat) ≤ U64MAX := by unfold U64MAX; omega
  have hcount0 : ((StatsForPeriod.sdefault now).update (initStats now x)).count = 1 := by
    simp only [StatsForPeriod.update, StatsForPeriod.sdefault, initStats]
    exact satAdd_zero_left hone
  have hmax0 : ((StatsForPeriod.sdefault now).update (initStats now x)).maximum = x := by
    simp only [StatsForPeriod.update, StatsForPeriod.sdefault, initStats]
    split <;> omega
  have hmin0 : ((StatsForPeriod.sdefault now).update (initStats now x)).minimum = x := by
    simp only [StatsForPeriod.update, StatsForPeriod.sdefault, initStats]
    simp
  have havg0 : ((StatsForPeriod.sdefault now).update (initStats now x)).average = (x : ℚ) := by
    simp only [StatsForPeriod.update, StatsForPeriod.sdefault, initStats]
    rw [satAdd_zero_left hone]
    norm_num
  obtain ⟨ic, imax, imin, iavg⟩ :=
    foldSamples_go now rest ((StatsForPeriod.sdefault now).update (initStats now x))
      (by rw [hcount0]; omega)
      (by rw [hcount0]; simp only [List.length_cons] at hlen; omega)
  have hfold : foldSamples now (x :: rest)
      = rest.foldl (fun a v => a.update (initStats now v))
          ((StatsForPeriod.sdefault now).update (initStats now x)) := rfl
  rw [hcount0] at ic iavg
  rw [hmax0] at imax
  rw [hmin0] at imin
  rw [havg0] at iavg
  refine ⟨?_, ⟨?_, ?_⟩, ⟨?_, ?_⟩, ?_⟩
  · rw [hfold, ic, List.length_cons]
    omega
  · rw [hfold, imax]
    rcases foldl_max_mem_or rest x with h | h
    · rw [h]; exact List.mem_cons_self x rest
    · exact List.mem_cons_of_mem x h
  · intro v hv
    rw [hfold, imax]
    rcases List.mem_cons.mp hv with h | h
    · subst h; exact foldl_max_base_le rest v
    · exact foldl_max_mem_le rest x v h
  · rw [hfold, imin]
    rcases foldl_min_mem_or rest x with h | h
    · rw [h]; exact List.mem_cons_self x rest
    · exact List.mem_cons_of_mem x h
  · intro v hv
    rw [hfold, imin]
    rcases List.mem_cons.mp hv with h | h
    · subst h; exact foldl_min_base_ge rest v
    · exact foldl_min_mem_ge rest x v h
  · rw [hfold]
    have hlenpos : (((x :: rest).length : ℚ)) ≠ 0 := by
      simp only [List.length_cons]
      push_cast
      positivity
    rw [eq_div_iff hlenpos]
    have hlc : (1 : Nat) + rest.length = (x :: rest).length := by
      rw [List.length_cons]; omega
    rw [hlc] at iavg
    rw [iavg]
    push_cast [List.sum_cons]
    ring

/-- Witness for C4 on the sample sequence 5, 2, 9. -/
theorem c4_fold_statistics_witness :
    (foldSamples 0 (5 :: ([2, 9] : List Nat))).count = (5 :: ([2, 9] : List Nat)).length ∧
    ((foldSamples 0 (5 :: ([2, 9] : List Nat))).maximum ∈ 5 :: ([2, 9] : List Nat) ∧
      ∀ v ∈ 5 :: ([2, 9] : List Nat), v ≤ (foldSamples 0 (5 :: ([2, 9] : List Nat))).maximum) ∧
    ((foldSamples 0 (5 :: ([2, 9] : List Nat))).minimum ∈ 5 :: ([2, 9] : List Nat) ∧
      ∀ v ∈ 5 :: ([2, 9] : List Nat), (foldSamples 0 (5 :: ([2, 9] : List Nat))).minimum ≤ v) ∧
    (foldSamples 0 (5 :: ([2, 9] : List Nat))).average
      = (((5 :: ([2, 9] : List Nat)).sum : ℚ)) / (((5 :: ([2, 9] : List Nat)).length : ℚ)) :=
  c4_fold_statistics 0 5 [2, 9] (by show (3 : Nat) ≤ U64MAX; unfold U64MAX; omega)

/-- A convex combination of two values of a closed interval stays inside it. -/
theorem convex_combo_bounds {lo hi q1 q2 w : ℚ} (h0 : 0 ≤ w) (h1 : w ≤ 1)
    (hl1 : lo ≤ q1) (hh1 : q1 ≤ hi) (hl2 : lo ≤ q2) (hh2 : q2 ≤ hi) :
    lo ≤ q1 * (1 - w) + q2 * w ∧ q1 * (1 - w) + q2 * w ≤ hi := by
  constructor <;> nlinarith

/-- Round `v` to the nearest multiple of `u` (a power of two), with ties going
to the even quotient: the rounding rule of IEEE-754 binary64. -/
def roundNearestEven (v u : Nat) : Nat :=
  let q := v / u
  let r := v % u
  if 2 * r < u then q * u
  else if u < 2 * r then (q + 1) * u
  else (if q % 2 = 0 then q else q + 1) * u

/-- Largest exponent `e` with `2 ^ e ≤ v` (0 for `v < 2`), computed with fuel;
fuel 64 covers the whole u64 range. -/
def binadeExp : Nat → Nat → Nat
  | 0, _ => 0
  | f + 1, v => if v < 2 then 0 else binadeExp f (v / 2) + 1

/-- Numeric value of the `u64 as f64` cast (round to nearest, ties to even):
values up to `2 ^ 53` are exact, larger values are rounded to a multiple of
the unit in the last place of their binade.  Faithful on the u64 range. -/
def castF64u64 (v : Nat) : Nat :=
  if v < 2 ^ 53 then v
  else roundNearestEven v (2 ^ (binadeExp 64 v - 52))

/-- Model of `StatsForPeriod::initialize(value)` with the `value as f64` cast
modelled faithfully via `castF64u64`, instead of the exact idealization used
by `initStats`. -/
def initStatsF (now : Int) (value : Nat) : StatsForPeriod :=
  { StatsForPeriod.sdefault now with
      average := (castF64u64 value : ℚ), maximum := value, minimum := value, count := 1 }

/-- The `u64 as f64` cast is exact up to `2 ^ 53`. -/
theorem castF64u64_of_le {v : Nat} (h : v ≤ 2 ^ 53) : castF64u64 v = v := by
  rcases Nat.lt_or_ge v (2 ^ 53) with hlt | hge
  · rw [castF64u64, if_pos hlt]
  · have hv : v = 2 ^ 53 := by omega
    subst hv
    decide

/-- The frozen C5 is false of the program: `initialize(9007199254740995)`
(that is, `2 ^ 53 + 3`) stores as average the f64 value `2 ^ 53 + 4` — the
`as f64` cast rounds up, ties to even — which exceeds the stored maximum
`2 ^ 53 + 3`, so the invariant already fails for that single-value
aggregate. -/
theorem c5_counterexample :
    ¬ AvgBetween (initStatsF 0 9007199254740995) ∧
    (initStatsF 0 9007199254740995).average = 9007199254740996 ∧
    (initStatsF 0 9007199254740995).maximum = 9007199254740995 := by
  have hcast : castF64u64 9007199254740995 = 9007199254740996 := by decide
  refine ⟨?_, ?_, rfl⟩
  · intro hinv
    have h2 := (hinv (by decide)).2
    have h3 : ((castF64u64 9007199254740995 : ℚ)) ≤ ((9007199254740995 : Nat) : ℚ) := h2
    rw [hcast] at h3
    have h4 : (9007199254740996 : Nat) ≤ (9007199254740995 : Nat) := by exact_mod_cast h3
    omega
  · show ((castF64u64 9007199254740995 : ℚ)) = 9007199254740996
    rw [hcast]
    norm_num

/-- Claim C5 (amended): the predicate "count positive implies minimum ≤
average ≤ maximum" holds for the default aggregate, for `initialize(v)` for
every value whose `v as f64` cast is exact (in particular all `v ≤ 2 ^ 53`),
and is preserved by `update` with the average combination computed in exact
arithmetic (for representable source counts, as forced by u64); for larger
values the cast can round the stored average above the stored maximum, so the
unrestricted claim fails (see the counterexample). -/
theorem c5_avg_between_amended :
    (∀ now : Int, AvgBetween (StatsForPeriod.sdefault now)) ∧
    (∀ (now : Int) (v : Nat), v ≤ 2 ^ 53 → AvgBetween (initStatsF now v)) ∧
    (∀ a b : StatsForPeriod, AvgBetween a → AvgBetween b → b.count ≤ U64MAX →
      AvgBetween (a.update b)) := by
  refine ⟨?_, ?_, ?_⟩
  · intro now h
    exact absurd h (by simp [StatsForPeriod.sdefault])
  · intro now v hv h
    have hc : castF64u64 v = v := castF64u64_of_le hv
    constructor
    · show ((v : Nat) : ℚ) ≤ ((castF64u64 v : ℚ))
      rw [hc]
    · show ((castF64u64 v : ℚ)) ≤ ((v : Nat) : ℚ)
      rw [hc]
  · intro a b ha hb hble hpos
    rw [update_count] at hpos
    have hposadd : 0 < a.count + b.count := satAdd_pos_iff.mp hpos
    show ((a.update b).minimum : ℚ) ≤ (a.update b).average ∧
      (a.update b).average ≤ ((a.update b).maximum : ℚ)
    rw [update_minimum, update_maximum, update_average]
    set lo := (if (b.minimum < a.minimum ∧ 0 < b.count) ∨ a.count = 0 then b.minimum
      else a.minimum) with hlo
    set hi := (if a.maximum < b.maximum then b.maximum else a.maximum) with hhi
    have hhia : a.maximum ≤ hi := by rw [hhi]; split <;> omega
    have hhib : b.maximum ≤ hi := by rw [hhi]; split <;> omega
    by_cases hbz : b.count = 0
    · have hak : 0 < a.count := by omega
      obtain ⟨ha1, ha2⟩ := ha hak
      have hloeq : lo = a.minimum := by
        rw [hlo]
        rw [if_neg]
        rintro (⟨-, h0⟩ | h0) <;> omega
      rw [if_neg (by rintro ⟨-, h0⟩; omega), hloeq]
      exact ⟨ha1, le_trans ha2 (by exact_mod_cast hhia)⟩
    · have hbk : 0 < b.count := Nat.pos_of_ne_zero hbz
      obtain ⟨hb1, hb2⟩ := hb hbk
      have hc : (0 : Nat) < satAdd a.count b.count := hpos
      have hcq : (0 : ℚ) < ((satAdd a.count b.count : Nat) : ℚ) := by exact_mod_cast hc
      have hble2 : b.count ≤ satAdd a.count b.count := le_satAdd_right hble
      have hwge : (0 : ℚ) ≤ (b.count : ℚ) / ((satAdd a.count b.count : Nat) : ℚ) :=
        div_nonneg (by positivity) (le_of_lt hcq)
      have hwle : (b.count : ℚ) / ((satAdd a.count b.count : Nat) : ℚ) ≤ 1 := by
        rw [div_le_one hcq]
        exact_mod_cast hble2
      have hlob : lo ≤ b.minimum := by
        rw [hlo]
        split
        · exact le_refl b.minimum
        · next h =>
            rw [not_or, not_and_or] at h
            rcases h.1 with h1 | h1 <;> omega
      have hqb1 : ((lo : Nat) : ℚ) ≤ b.average := le_trans (by exact_mod_cast hlob) hb1
      have hqb2 : b.average ≤ ((hi : Nat) : ℚ) := le_trans hb2 (by exact_mod_cast hhib)
      rw [if_pos ⟨hc, hbk⟩]
      by_cases haz : a.count = 0
      · have hsat : satAdd a.count b.count = b.count := by
          rw [haz]; exact satAdd_zero_left hble
        rw [hsat]
        have hw1 : (b.count : ℚ) / (b.count : ℚ) = 1 :=
          div_self (by exact_mod_cast hbz)
        rw [hw1]
        constructor
        · calc ((lo : Nat) : ℚ) ≤ b.average := hqb1
            _ = a.average * (1 - 1) + b.average * 1 := by ring
        · calc a.average * (1 - 1) + b.average * 1 = b.average := by ring
            _ ≤ ((hi : Nat) : ℚ) := hqb2
      · have hak : 0 < a.count := Nat.pos_of_ne_zero haz
        obtain ⟨ha1, ha2⟩ := ha hak
        have hloa : lo ≤ a.minimum := by
          rw [hlo]
          split
          · next h => rcases h with ⟨h1, -⟩ | h1 <;> omega
          · exact le_refl a.minimum
        have hqa1 : ((lo : Nat) : ℚ) ≤ a.average := le_trans (by exact_mod_cast hloa) ha1
        have hqa2 : a.average ≤ ((hi : Nat) : ℚ) := le_trans ha2 (by exact_mod_cast hhia)
        exact convex_combo_bounds hwge hwle hqa1 hqa2 hqb1 hqb2
/-- Witness for the amended C5: the exact-cast part applied at value 7, and
the closure part applied to two concrete populated aggregates. -/
theorem c5_avg_between_amended_witness :
    AvgBetween (initStatsF 0 7) ∧
    AvgBetween (StatsForPeriod.update ⟨0, 2, 3, 1, 2⟩ ⟨0, 5, 6, 4, 1⟩) :=
  ⟨c5_avg_between_amended.2.1 0 7 (by norm_num),
    c5_avg_between_amended.2.2 ⟨0, 2, 3, 1, 2⟩ ⟨0, 5, 6, 4, 1⟩
      (fun _ => by constructor <;> norm_num)
      (fun _ => by constructor <;> norm_num)
      (by show (1 : Nat) ≤ U64MAX; unfold U64MAX; omega)⟩

/-- Model of `AllStatsForPeriod` (worker.rs lines 139-152): the three aggregates
for one completed second. -/
structure AllStatsForPeriod where
  times       : StatsForPeriod
  connections : StatsForPeriod
  memory      : StatsForPeriod
deriving DecidableEq, Repr

/-- Model of `AllStatsForPeriod::default()`: all three fields default (with the
SmartDefault `started_at = now`). -/
def AllStatsForPeriod.adefault (now : Int) : AllStatsForPeriod :=
  ⟨StatsForPeriod.sdefault now, StatsForPeriod.sdefault now, StatsForPeriod.sdefault now⟩

/-- The `for i in 0..elapsed` loop of `update_buffer` (worker.rs lines 327-335):
`n` is the number of remaining iterations and `i` the loop counter.  Each
iteration pops the back when the buffer is at capacity, stamps the accumulator
with `current_second + i`, pushes it at the front, lets the closure copy it
into the broadcast message, and resets the accumulator to `default()`. -/
def ubGo (size : Nat) (cs now : Int)
    (upd : StatsForPeriod → AllStatsForPeriod → AllStatsForPeriod) :
    Nat → Nat → List StatsForPeriod → StatsForPeriod → AllStatsForPeriod →
      List StatsForPeriod × StatsForPeriod × AllStatsForPeriod
  | 0, _, buf, stats, msg => (buf, stats, msg)
  | n + 1, i, buf, stats, msg =>
    let buf0 := if buf.length = size then buf.dropLast else buf
    let entry := { stats with started_at := cs + (i : Int) }
    ubGo size cs now upd n (i + 1) (entry :: buf0) (StatsForPeriod.sdefault now) (upd entry msg)

/-- Model of `update_buffer` (worker.rs lines 318-336), with the same parameter order as
the source; `now` feeds the `Default` timestamps of the reset accumulators. -/
def update_buffer (buf : List StatsForPeriod) (size : Nat) (stats : StatsForPeriod)
    (cs : Int) (elapsed : Nat) (msg : AllStatsForPeriod) (now : Int)
    (upd : StatsForPeriod → AllStatsForPeriod → AllStatsForPeriod) :
    List StatsForPeriod × StatsForPeriod × AllStatsForPeriod :=
  ubGo size cs now upd elapsed 0 buf stats msg

/-- Length evolution of the ring buffer loop for a positive capacity: the
length after the loop is the incoming length plus the iteration count, capped
at the capacity. -/
theorem ubGo_length_eq (size : Nat) (cs now : Int)
    (upd : StatsForPeriod → AllStatsForPeriod → AllStatsForPeriod) (hsize : 0 < size) :
    ∀ (n i : Nat) (buf : List StatsForPeriod) (stats : StatsForPeriod)
      (msg : AllStatsForPeriod), buf.length ≤ size →
      (ubGo size cs now upd n i buf stats msg).1.length = min (buf.length + n) size := by
  intro n
  induction n with
  | zero =>
    intro i buf stats msg h
    simp only [ubGo]
    rw [Nat.add_zero, Nat.min_eq_left h]
  | succ m ih =>
    intro i buf stats msg h
    simp only [ubGo]
    by_cases hfull : buf.length = size
    · rw [if_pos hfull]
      have h1 : ({ stats with started_at := cs + (i : Int) } :: buf.dropLast).length = size := by
        rw [List.length_cons, List.length_dropLast]
        omega
      have h2 := ih (i + 1) ({ stats with started_at := cs + (i : Int) } :: buf.dropLast)
        (StatsForPeriod.sdefault now)
        (upd { stats with started_at := cs + (i : Int) } msg) (le_of_eq h1)
      rw [h2, h1, hfull, Nat.min_eq_right (by omega), Nat.min_eq_right (by omega)]
    · have hlt : buf.length < size := by omega
      rw [if_neg hfull]
      have h1 : ({ stats with started_at := cs + (i : Int) } :: buf).length = buf.length + 1 :=
        List.length_cons _ buf
      have h2 := ih (i + 1) ({ stats with started_at := cs + (i : Int) } :: buf)
        (StatsForPeriod.sdefault now)
        (upd { stats with started_at := cs + (i : Int) } msg) (by rw [h1]; omega)
      rw [h2, h1]
      congr 1
      omega

/-- Claim C7 (amended): for a positive configured capacity, after any number of
loop iterations the buffer length is the old length plus the iteration count
capped at the capacity — in particular it never exceeds the capacity (at
capacity, each push is preceded by dropping the back entry). -/
theorem c7_ring_capacity (size : Nat) (cs now : Int)
    (upd : StatsForPeriod → AllStatsForPeriod → AllStatsForPeriod)
    (elapsed : Nat) (buf : List StatsForPeriod) (stats : StatsForPeriod)
    (msg : AllStatsForPeriod) (hsize : 0 < size) (hlen : buf.length ≤ size) :
    (update_buffer buf size stats cs elapsed msg now upd).1.length
        = min (buf.length + elapsed) size ∧
    (update_buffer buf size stats cs elapsed msg now upd).1.length ≤ size := by
  have h := ubGo_length_eq size cs now upd hsize elapsed 0 buf stats msg hlen
  constructor
  · simp only [update_buffer]
    exact h
  · simp only [update_buffer]
    rw [h]
    exact Nat.min_le_right _ _

/-- The closure passed for the timing buffer: `|stats, msg| msg.times = *stats`. -/
def setTimes (s : StatsForPeriod) (m : AllStatsForPeriod) : AllStatsForPeriod :=
  { m with times := s }

/-- The closure passed for the connections buffer. -/
def setConns (s : StatsForPeriod) (m : AllStatsForPeriod) : AllStatsForPeriod :=
  { m with connections := s }

/-- The closure passed for the memory buffer. -/
def setMemory (s : StatsForPeriod) (m : AllStatsForPeriod) : AllStatsForPeriod :=
  { m with memory := s }

/-- Witness for the amended C7: capacity 2, five iterations from empty. -/
theorem c7_ring_capacity_witness :
    (update_buffer [] 2 (StatsForPeriod.sdefault 0) 0 5
        (AllStatsForPeriod.adefault 0) 0 setTimes).1.length
      = min (([] : List StatsForPeriod).length + 5) 2 ∧
    (update_buffer [] 2 (StatsForPeriod.sdefault 0) 0 5
        (AllStatsForPeriod.adefault 0) 0 setTimes).1.length ≤ 2 :=
  c7_ring_capacity 2 0 0 setTimes 5 [] (StatsForPeriod.sdefault 0)
    (AllStatsForPeriod.adefault 0) (by omega) (by simp)

/-- The frozen C7 is false for capacity 0 (which the configuration type
allows): from an empty buffer one loop iteration pops the (absent) back entry
and still pushes, leaving one entry in a zero-capacity buffer. -/
theorem c7_counterexample :
    ¬ ((update_buffer [] 0 (StatsForPeriod.sdefault 0) 0 1
        (AllStatsForPeriod.adefault 0) 0 setTimes).1.length ≤ 0) := by
  decide

/-- Model of `AppStatsBuffers` (state.rs lines 131-144): the three ring
buffers, newest first. -/
structure Buffers where
  responses   : List StatsForPeriod
  connections : List StatsForPeriod
  memory      : List StatsForPeriod
deriving DecidableEq, Repr

/-- The state written back by one invocation of the period-advance section of
`stats_processor`, plus the list of messages broadcast during it. -/
structure AdvanceResult where
  buffers        : Buffers
  timing_stats   : StatsForPeriod
  conn_stats     : StatsForPeriod
  memory_stats   : StatsForPeriod
  last_second    : Int
  current_second : Int
  sent           : List AllStatsForPeriod
deriving DecidableEq, Repr

/-- The period-advance section of `stats_processor` (worker.rs lines 392-435):
when `new_second > current_second`, run `update_buffer` on the three buffers
(threading one `AllStatsForPeriod::default()` message through the three
closures), record `last_second = current_second`, advance `current_second`,
and, when the broadcaster is installed, send the message once. -/
def stats_processor_advance (tsize csize msize : Nat) (now : Int) (broadcaster : Bool)
    (bufs : Buffers) (timing_stats conn_stats memory_stats : StatsForPeriod)
    (last_second current_second new_second : Int) : AdvanceResult :=
  if current_second < new_second then
    let elapsed := (new_second - current_second).toNat
    let r1 := update_buffer bufs.responses tsize timing_stats current_second elapsed
      (AllStatsForPeriod.adefault now) now setTimes
    let r2 := update_buffer bufs.connections csize conn_stats current_second elapsed
      r1.2.2 now setConns
    let r3 := update_buffer bufs.memory msize memory_stats current_second elapsed
      r2.2.2 now setMemory
    { buffers := ⟨r1.1, r2.1, r3.1⟩
      timing_stats := r1.2.1
      conn_stats := r2.2.1
      memory_stats := r3.2.1
      last_second := current_second
      current_second := new_second
      sent := if broadcaster then [r3.2.2] else [] }
  else
    { buffers := bufs
      timing_stats := timing_stats
      conn_stats := conn_stats
      memory_stats := memory_stats
      last_second := last_second
      current_second := current_second
      sent := [] }

/-- After the loop, the `times` field of the message holds the LAST entry pushed:
the stamped accumulator when there is a single iteration, and a stamped
`default()` otherwise; the other message fields are untouched. -/
theorem ubGo_msg_setTimes (size : Nat) (cs now : Int) :
    ∀ (n i : Nat) (buf : List StatsForPeriod) (stats : StatsForPeriod)
      (msg : AllStatsForPeriod), 0 < n →
      (ubGo size cs now setTimes n i buf stats msg).2.2 =
        { msg with times :=
            { (if n = 1 then stats else StatsForPeriod.sdefault now) with
                started_at := cs + (i : Int) + (n : Int) - 1 } } := by
  intro n
  induction n with
  | zero => intro i buf stats msg h; omega
  | succ m ih =>
    intro i buf stats msg h
    by_cases hm : m = 0
    · subst hm
      simp only [ubGo, setTimes, if_true]
      congr 1
      congr 1
      push_cast
      ring
    · have hmpos : 0 < m := Nat.pos_of_ne_zero hm
      simp only [ubGo]
      rw [ih (i + 1) _ _ _ hmpos]
      rw [if_neg (by omega : ¬ (m + 1 = 1))]
      simp only [setTimes, ite_self]
      congr 1
      congr 1
      push_cast
      ring

/-- Analogue of the previous lemma for the connections closure. -/
theorem ubGo_msg_setConns (size : Nat) (cs now : Int) :
    ∀ (n i : Nat) (buf : List StatsForPeriod) (stats : StatsForPeriod)
      (msg : AllStatsForPeriod), 0 < n →
      (ubGo size cs now setConns n i buf stats msg).2.2 =
        { msg with connections :=
            { (if n = 1 then stats else StatsForPeriod.sdefault now) with
                started_at := cs + (i : Int) + (n : Int) - 1 } } := by
  intro n
  induction n with
  | zero => intro i buf stats msg h; omega
  | succ m ih =>
    intro i buf stats msg h
    by_cases hm : m = 0
    · subst hm
      simp only [ubGo, setConns, if_true]
      congr 1
      congr 1
      push_cast
      ring
    · have hmpos : 0 < m := Nat.pos_of_ne_zero hm
      simp only [ubGo]
      rw [ih (i + 1) _ _ _ hmpos]
      rw [if_neg (by omega : ¬ (m + 1 = 1))]
      simp only [setConns, ite_self]
      congr 1
      congr 1
      push_cast
      ring

/-- Analogue of the previous lemma for the memory closure. -/
theorem ubGo_msg_setMemory (size : Nat) (cs now : Int) :
    ∀ (n i : Nat) (buf : List StatsForPeriod) (stats : StatsForPeriod)
      (msg : AllStatsForPeriod), 0 < n →
      (ubGo size cs now setMemory n i buf stats msg).2.2 =
        { msg with memory :=
            { (if n = 1 then stats else StatsForPeriod.sdefault now) with
                started_at := cs + (i : Int) + (n : Int) - 1 } } := by
  intro n
  induction n with
  | zero => intro i buf stats msg h; omega
  | succ m ih =>
    intro i buf stats msg h
    by_cases hm : m = 0
    · subst hm
      simp only [ubGo, setMemory, if_true]
      congr 1
      congr 1
      push_cast
      ring
    · have hmpos : 0 < m := Nat.pos_of_ne_zero hm
      simp only [ubGo]
      rw [ih (i + 1) _ _ _ hmpos]
      rw [if_neg (by omega : ¬ (m + 1 = 1))]
      simp only [setMemory, ite_self]
      congr 1
      congr 1
      push_cast
      ring

/-- Claim C1 (amended): every advance publishes exactly one message when the
broadcaster is installed (none otherwise) — including a tick-only advance with
no accumulated samples, which still publishes one zero-count message.  The
message carries the aggregates of the LAST entry pushed during the advance:
the stamped accumulators when `elapsed = 1`, and the final stamped idle-gap
`default()` entry when `elapsed > 1` (so idle-gap entries do determine the
message content). -/
theorem c1_advance_broadcast (tsize csize msize : Nat) (now : Int) (b : Bool)
    (bufs : Buffers) (timing_stats conn_stats memory_stats : StatsForPeriod)
    (last_second current_second new_second : Int)
    (h : current_second < new_second) :
    (stats_processor_advance tsize csize msize now b bufs timing_stats conn_stats
        memory_stats last_second current_second new_second).sent =
      if b then
        [⟨{ (if new_second = current_second + 1 then timing_stats
              else StatsForPeriod.sdefault now) with started_at := new_second - 1 },
          { (if new_second = current_second + 1 then conn_stats
              else StatsForPeriod.sdefault now) with started_at := new_second - 1 },
          { (if new_second = current_second + 1 then memory_stats
              else StatsForPeriod.sdefault now) with started_at := new_second - 1 }⟩]
      else [] := by
  have hel : 0 < (new_second - current_second).toNat := by omega
  have key : ∀ s : StatsForPeriod,
      { (if (new_second - current_second).toNat = 1 then s
          else StatsForPeriod.sdefault now) with
          started_at := current_second + ((0 : Nat) : Int)
            + (((new_second - current_second).toNat : Nat) : Int) - 1 }
        = { (if new_second = current_second + 1 then s
            else StatsForPeriod.sdefault now) with started_at := new_second - 1 } := by
    intro s
    have hia : current_second + ((0 : Nat) : Int)
        + (((new_second - current_second).toNat : Nat) : Int) - 1 = new_second - 1 := by
      omega
    have hiff : ((new_second - current_second).toNat = 1)
        = (new_second = current_second + 1) :=
      propext (by constructor <;> intro h2 <;> omega)
    rw [hia]
    simp only [hiff]
  simp only [stats_processor_advance, update_buffer]
  rw [if_pos h]
  rw [ubGo_msg_setTimes tsize current_second now ((new_second - current_second).toNat) 0
    bufs.responses timing_stats (AllStatsForPeriod.adefault now) hel]
  rw [ubGo_msg_setConns csize current_second now ((new_second - current_second).toNat) 0
    bufs.connections conn_stats _ hel]
  rw [ubGo_msg_setMemory msize current_second now ((new_second - current_second).toNat) 0
    bufs.memory memory_stats _ hel]
  rw [key timing_stats, key conn_stats, key memory_stats]

/-- Witness for the amended C1: a one-second advance with accumulated samples
and the broadcaster installed. -/
theorem c1_advance_broadcast_witness :
    (stats_processor_advance 3 3 3 50 true ⟨[], [], []⟩ (initStats 50 7) (initStats 50 8)
        (initStats 50 9) 0 0 1).sent =
      if true then
        [⟨{ (if (1 : Int) = 0 + 1 then initStats 50 7 else StatsForPeriod.sdefault 50) with
              started_at := (1 : Int) - 1 },
          { (if (1 : Int) = 0 + 1 then initStats 50 8 else StatsForPeriod.sdefault 50) with
              started_at := (1 : Int) - 1 },
          { (if (1 : Int) = 0 + 1 then initStats 50 9 else StatsForPeriod.sdefault 50) with
              started_at := (1 : Int) - 1 }⟩]
      else [] :=
  c1_advance_broadcast 3 3 3 50 true ⟨[], [], []⟩ (initStats 50 7) (initStats 50 8)
    (initStats 50 9) 0 0 1 (by norm_num)

/-- The frozen C1 is false on the code.  First conjunct pair: an advance with
`elapsed = 2` and one accumulated sample publishes a message whose `times`
aggregate has count 0 (the final idle-gap entry), while the FIRST entry pushed
in that advance (the genuine one, deepest in the buffer) has count 1 — so the
message does not carry the aggregates of the first entry, and an idle-gap entry does
determine the content.  Last conjunct: a tick-only advance with no samples
accumulated still publishes one message, not zero. -/
theorem c1_counterexample :
    ((stats_processor_advance 10 10 10 99 true ⟨[], [], []⟩ (initStats 99 5) (initStats 99 6)
        (initStats 99 7) 0 0 2).sent.map (fun m => m.times.count) = [0] ∧
      (stats_processor_advance 10 10 10 99 true ⟨[], [], []⟩ (initStats 99 5) (initStats 99 6)
        (initStats 99 7) 0 0 2).buffers.responses.map (fun s => s.count) = [0, 1]) ∧
    (stats_processor_advance 10 10 10 99 true ⟨[], [], []⟩ (StatsForPeriod.sdefault 99)
        (StatsForPeriod.sdefault 99) (StatsForPeriod.sdefault 99) 0 0 1).sent.length = 1 := by
  decide

/-- chrono `Duration::num_microseconds()`: defined while the microsecond count
fits in a signed 64-bit integer, `None` (and a panic on `unwrap`) otherwise. -/
def num_microseconds (d : Int) : Option Int :=
  if -(2 ^ 63) ≤ d ∧ d < 2 ^ 63 then some d else none

/-- The `time_taken` computation of the capture hook (middleware.rs line 123):
`(Utc::now().naive_utc() - stats_cx.started_at).num_microseconds().unwrap() as
u64`.  Timestamps are in microseconds here; `none` models the unwrap panic. -/
def response_time_taken (now started : Int) : Option Nat :=
  (num_microseconds (now - started)).map castU64

/-- Claim C2 (amended): the capture hook computes the elapsed microseconds and
casts them to `u64` with a wrapping cast (reduction mod `2 ^ 64`), not
a clamp: for a non-negative elapsed time the sample carries the exact value,
but for a negative elapsed time it carries `2 ^ 64 + elapsed`, not 0.  The
unwrap can only panic when the elapsed microseconds overflow `i64`. -/
theorem c2_time_taken_wraps (now started : Int)
    (h1 : -(2 ^ 63) ≤ now - started) (h2 : now - started < 2 ^ 63) :
    response_time_taken now started = some (castU64 (now - started)) ∧
    (started ≤ now → response_time_taken now started = some (now - started).toNat) ∧
    (now < started →
      response_time_taken now started = some ((2 ^ 64 + (now - started)).toNat)) := by
  have hbase : response_time_taken now started = some (castU64 (now - started)) := by
    rw [response_time_taken, num_microseconds, if_pos ⟨h1, h2⟩]
    rfl
  refine ⟨hbase, ?_, ?_⟩
  · intro hge
    rw [hbase]
    congr 1
    rw [castU64]
    omega
  · intro hlt
    rw [hbase]
    congr 1
    rw [castU64]
    omega

/-- Witness for the amended C2 at a 7-microsecond elapsed time. -/
theorem c2_time_taken_wraps_witness :
    response_time_taken 10 3 = some (castU64 (10 - 3)) ∧
    ((3 : Int) ≤ 10 → response_time_taken 10 3 = some ((10 - 3 : Int)).toNat) ∧
    ((10 : Int) < 3 →
      response_time_taken 10 3 = some (((2 ^ 64 + (10 - 3) : Int)).toNat)) :=
  c2_time_taken_wraps 10 3 (by norm_num) (by norm_num)

/-- The frozen C2 is false: a completion one microsecond before the recorded
start yields `time_taken = 2 ^ 64 - 1` (the wrapped value of -1), not 0. -/
theorem c2_counterexample :
    response_time_taken 0 1 = some (2 ^ 64 - 1) ∧ response_time_taken 0 1 ≠ some 0 := by
  decide

/-- Model of `Endpoint` (worker.rs lines 32-41): request path and HTTP verb. -/
structure Endpoint where
  path   : String
  method : String
deriving DecidableEq, Repr

/-- Model of `ResponseMetrics` (worker.rs lines 160-181): the sample of a
single request as placed on the statistics queue. -/
structure ResponseMetrics where
  endpoint    : Endpoint
  started_at  : Int
  time_taken  : Nat
  status_code : Nat
  connections : Nat
  memory      : Nat
deriving DecidableEq, Repr

/-- The capture path of `stats_layer` (middleware.rs lines 88-135).  Inputs:
whether stats are enabled, whether the queue sender is installed, whether the
queue send succeeds, the allocator query result (`Malloc::read()`, `none` =
error), the completion and start timestamps in microseconds, the endpoint, the
response status, the connection snapshot, and the inner response (abstracted
as a number).  Output: `none` when an `unwrap` panics, otherwise the returned
response together with the samples that reached the queue. -/
def stats_layer (enabled queue_present send_ok : Bool) (alloc : Option Nat)
    (now cx_started : Int) (path method : String) (status conns resp : Nat) :
    Option (Nat × List ResponseMetrics) :=
  if enabled = false then some (resp, [])
  else if queue_present then
    match num_microseconds (now - cx_started), alloc with
    | some us, some memBytes =>
      some (resp,
        if send_ok then
          [⟨⟨path, method⟩, cx_started, castU64 us, status, conns, memBytes⟩]
        else [])
    | _, _ => none
  else some (resp, [])

/-- Claim C3 (amended): whenever the allocator query succeeds (and the elapsed
microseconds fit `i64`), no capture failure is surfaced to the caller: the
response of the inner handler is always returned, and a queue-send failure merely
drops the sample.  An allocator failure, however, panics through `unwrap`
instead of substituting zero — see the counterexample. -/
theorem c3_no_failure_surfaced (enabled queue_present send_ok : Bool) (memBytes : Nat)
    (now cx_started : Int) (path method : String) (status conns resp : Nat)
    (h1 : -(2 ^ 63) ≤ now - cx_started) (h2 : now - cx_started < 2 ^ 63) :
    stats_layer enabled queue_present send_ok (some memBytes) now cx_started path method
        status conns resp =
      some (resp,
        if enabled && queue_present && send_ok then
          [⟨⟨path, method⟩, cx_started, castU64 (now - cx_started), status, conns, memBytes⟩]
        else []) := by
  have hnm : num_microseconds (now - cx_started) = some (now - cx_started) := by
    rw [num_microseconds, if_pos ⟨h1, h2⟩]
  cases enabled <;> cases queue_present <;> cases send_ok <;>
    simp [stats_layer, hnm]

/-- Witness for the amended C3: telemetry enabled, queue installed, allocator
result 1024 bytes, but the queue send fails — the response is still returned
and no sample is enqueued. -/
theorem c3_no_failure_surfaced_witness :
    stats_layer true true false (some 1024) 5 2 "/a" "GET" 200 3 42 =
      some (42,
        if true && true && false then
          [⟨⟨"/a", "GET"⟩, 2, castU64 (5 - 2), 200, 3, 1024⟩]
        else []) :=
  c3_no_failure_surfaced true true false 1024 5 2 "/a" "GET" 200 3 42
    (by norm_num) (by norm_num)

/-- The frozen C3 is false: an allocator query failure makes the capture hook
panic (`Malloc::read().unwrap()`), rather than enqueueing a sample with memory
zero and returning the response. -/
theorem c3_counterexample :
    stats_layer true true true none 10 0 "/" "GET" 200 1 7 = none ∧
    stats_layer true true true none 10 0 "/" "GET" 200 1 7
      ≠ some (7, [⟨⟨"/", "GET"⟩, 0, 10, 200, 1, 0⟩]) := by
  refine ⟨rfl, ?_⟩
  intro hcontra
  rw [show stats_layer true true true none 10 0 "/" "GET" 200 1 7 = none from rfl] at hcontra
  exact Option.noConfusion hcontra

/-- Response-shape aggregate (`StatsResponseForPeriod`, handlers.rs lines
202-215). -/
structure StatsResponseForPeriod where
  average : ℚ
  maximum : Nat
  minimum : Nat
  count   : Nat
deriving DecidableEq, Repr

/-- Model of `From<&StatsForPeriod> for StatsResponseForPeriod` (handlers.rs lines
218-228): drops the timestamp and keeps the four statistics fields. -/
def toResp (s : StatsForPeriod) : StatsResponseForPeriod :=
  ⟨s.average, s.maximum, s.minimum, s.count⟩

/-- Model of `AppStatsTotals` (state.rs lines 100-126); the hash maps are
association lists. -/
structure AppStatsTotals where
  codes       : List (Nat × Nat)
  times       : StatsForPeriod
  endpoints   : List (Endpoint × StatsForPeriod)
  connections : StatsForPeriod
  memory      : StatsForPeriod
deriving DecidableEq, Repr

/-- Model of `AppStatsTotals::default()` (state.rs lines 100-126): the codes map is
pre-seeded with the four status codes 200, 401, 404 and 500, each mapped to
zero; the endpoints map is empty and the aggregates are default. -/
def AppStatsTotals.initial (now : Int) : AppStatsTotals :=
  ⟨[(200, 0), (401, 0), (404, 0), (500, 0)], StatsForPeriod.sdefault now, [],
    StatsForPeriod.sdefault now, StatsForPeriod.sdefault now⟩

/-- The pots created by `initialize_map` (handlers.rs lines 283-288) before
the buffer pass: period names sorted ascending by period length (a stable
sort, as itertools sorted_by), each mapped to a default aggregate. -/
def initPots (now : Int) (periods : List (String × Nat)) :
    List (String × StatsForPeriod) :=
  (List.insertionSort (fun a b => a.2 ≤ b.2) periods).map
    (fun p => (p.1, StatsForPeriod.sdefault now))

/-- Hash-map lookup on the periods association list. -/
def lookupPeriod (periods : List (String × Nat)) (name : String) : Option Nat :=
  (periods.find? (fun p => p.1 == name)).map (fun p => p.2)

/-- One pass of the buffer loop of `initialize_map` (handlers.rs lines
290-297): buffer entry number `i` is folded into every pot whose period
exceeds `i`. -/
def applyEntry (periods : List (String × Nat)) (i : Nat) (stats : StatsForPeriod)
    (out : List (String × StatsForPeriod)) : List (String × StatsForPeriod) :=
  out.map (fun nv =>
    match lookupPeriod periods nv.1 with
    | some p => if i < p then (nv.1, nv.2.update stats) else nv
    | none => nv)

/-- Model of `initialize_map` (handlers.rs lines 279-299). -/
def init_map (now : Int) (periods : List (String × Nat))
    (buffer : List StatsForPeriod) : List (String × StatsForPeriod) :=
  buffer.enum.foldl (fun out iv => applyEntry periods iv.1 iv.2 out)
    (initPots now periods)

/-- Model of `convert_map` (handlers.rs lines 302-313): convert each pot and append the
`all` entry taken from the totals. -/
def convert_map (input : List (String × StatsForPeriod)) (allStats : StatsForPeriod) :
    List (String × StatsResponseForPeriod) :=
  input.map (fun kv => (kv.1, toResp kv.2)) ++ [("all", toResp allStats)]

/-- The overview response (`StatsResponse`, handlers.rs lines 134-173). -/
structure StatsResponse where
  started_at  : Int
  last_second : Int
  uptime      : Nat
  active      : Nat
  requests    : Nat
  codes       : List (Nat × Nat)
  times       : List (String × StatsResponseForPeriod)
  endpoints   : List (Endpoint × StatsResponseForPeriod)
  connections : List (String × StatsResponseForPeriod)
  memory      : List (String × StatsResponseForPeriod)
deriving DecidableEq, Repr

/-- Model of `get_stats` (handlers.rs lines 274-360): build the three period maps from
the buffers, convert them with the all-time totals appended, and copy the
counters and the codes map (`totals.codes.clone()`). -/
def get_stats (now : Int) (periods : List (String × Nat)) (bufs : Buffers)
    (totals : AppStatsTotals) (app_started last_second : Int)
    (active requests : Nat) : StatsResponse :=
  let timing_input := init_map now periods bufs.responses
  let conn_input   := init_map now periods bufs.connections
  let memory_input := init_map now periods bufs.memory
  { started_at  := app_started
    last_second := last_second
    uptime      := castU64 (now - app_started)
    active      := active
    requests    := requests
    codes       := totals.codes
    times       := convert_map timing_input totals.times
    endpoints   := totals.endpoints.map (fun kv => (kv.1, toResp kv.2))
    connections := convert_map conn_input totals.connections
    memory      := convert_map memory_input totals.memory }

/-- Converting the untouched pots with a default `all` aggregate yields only
zeroed response aggregates. -/
theorem convert_pots_zero (now : Int) (periods : List (String × Nat)) :
    ∀ kv ∈ convert_map (initPots now periods) (StatsForPeriod.sdefault now),
      kv.2 = (⟨0, 0, 0, 0⟩ : StatsResponseForPeriod) := by
  intro kv hkv
  rcases List.mem_append.mp hkv with hmem | hmem
  · rcases List.mem_map.mp hmem with ⟨nv, hnv, rfl⟩
    rcases List.mem_map.mp hnv with ⟨p, hp, rfl⟩
    rfl
  · rcases List.mem_singleton.mp hmem with rfl
    rfl

/-- Claim C8 (amended): with the totals in their initial state and all buffers
empty, the overview returns the pre-seeded codes map (the four status codes
200, 401, 404 and 500 with count zero — NOT an empty map), an empty endpoints
map, and zeroed aggregates in every period map. -/
theorem c8_initial_overview (now app_started last_second : Int)
    (periods : List (String × Nat)) (active requests : Nat) :
    (get_stats now periods ⟨[], [], []⟩ (AppStatsTotals.initial now) app_started
        last_second active requests).codes
      = [(200, 0), (401, 0), (404, 0), (500, 0)] ∧
    (get_stats now periods ⟨[], [], []⟩ (AppStatsTotals.initial now) app_started
        last_second active requests).endpoints = [] ∧
    (∀ kv ∈ (get_stats now periods ⟨[], [], []⟩ (AppStatsTotals.initial now) app_started
        last_second active requests).times, kv.2 = (⟨0, 0, 0, 0⟩ : StatsResponseForPeriod)) ∧
    (∀ kv ∈ (get_stats now periods ⟨[], [], []⟩ (AppStatsTotals.initial now) app_started
        last_second active requests).connections,
      kv.2 = (⟨0, 0, 0, 0⟩ : StatsResponseForPeriod)) ∧
    (∀ kv ∈ (get_stats now periods ⟨[], [], []⟩ (AppStatsTotals.initial now) app_started
        last_second active requests).memory,
      kv.2 = (⟨0, 0, 0, 0⟩ : StatsResponseForPeriod)) := by
  refine ⟨rfl, rfl, ?_, ?_, ?_⟩ <;>
    exact convert_pots_zero now periods

/-- Witness for the amended C8 with one configured period. -/
theorem c8_initial_overview_witness :
    (get_stats 0 [("minute", 60)] ⟨[], [], []⟩ (AppStatsTotals.initial 0) 0 0 0 0).codes
      = [(200, 0), (401, 0), (404, 0), (500, 0)] ∧
    (get_stats 0 [("minute", 60)] ⟨[], [], []⟩ (AppStatsTotals.initial 0) 0 0 0 0).endpoints
      = [] ∧
    (∀ kv ∈ (get_stats 0 [("minute", 60)] ⟨[], [], []⟩ (AppStatsTotals.initial 0) 0 0 0 0).times,
      kv.2 = (⟨0, 0, 0, 0⟩ : StatsResponseForPeriod)) ∧
    (∀ kv ∈ (get_stats 0 [("minute", 60)] ⟨[], [], []⟩
        (AppStatsTotals.initial 0) 0 0 0 0).connections,
      kv.2 = (⟨0, 0, 0, 0⟩ : StatsResponseForPeriod)) ∧
    (∀ kv ∈ (get_stats 0 [("minute", 60)] ⟨[], [], []⟩
        (AppStatsTotals.initial 0) 0 0 0 0).memory,
      kv.2 = (⟨0, 0, 0, 0⟩ : StatsResponseForPeriod)) :=
  c8_initial_overview 0 0 0 [("minute", 60)] 0 0

/-- The frozen C8 is false: in the initial state the reported codes map is not
empty (it holds the four pre-seeded status codes). -/
theorem c8_counterexample :
    (get_stats 0 [] ⟨[], [], []⟩ (AppStatsTotals.initial 0) 0 0 0 0).codes ≠ [] := by
  decide

/-- The take_while predicate of `process_buffer` (handlers.rs line 411):
`from.map_or(true, |time| entry.started_at >= time)`. -/
def historyPred (fromT : Option Int) (e : StatsForPeriod) : Bool :=
  match fromT with
  | none => true
  | some t => decide (t ≤ e.started_at)

/-- Model of the rubedo crate `IteratorExt::limit`: `take` when a limit is given, the
whole sequence otherwise. -/
def limitList (limit : Option Nat) (l : List StatsForPeriod) : List StatsForPeriod :=
  match limit with
  | none => l
  | some n => l.take n

/-- Model of `process_buffer` (handlers.rs lines 405-415): take entries while they pass
the `from` filter, stop at the limit, and convert. -/
def process_buffer (buffer : List StatsForPeriod) (fromT : Option Int)
    (limit : Option Nat) : List StatsResponseForPeriod :=
  (limitList limit (buffer.takeWhile (historyPred fromT))).map toResp

/-- The selectable measurement streams (handlers.rs lines 62-71). -/
inductive MeasurementType where
  | times
  | connections
  | memory
deriving DecidableEq, Repr

/-- The history response (`StatsHistoryResponse`, handlers.rs lines 178-197);
unselected buffers stay at their `Default` (empty) value. -/
structure StatsHistoryResponse where
  last_second : Int
  times       : List StatsResponseForPeriod
  connections : List StatsResponseForPeriod
  memory      : List StatsResponseForPeriod
deriving DecidableEq, Repr

/-- Model of `get_stats_history` (handlers.rs lines 399-444): dispatch on the selected
buffer (all three when unspecified). -/
def get_stats_history (bufs : Buffers) (last_second : Int)
    (buffer : Option MeasurementType) (fromT : Option Int) (limit : Option Nat) :
    StatsHistoryResponse :=
  match buffer with
  | some MeasurementType.times =>
      ⟨last_second, process_buffer bufs.responses fromT limit, [], []⟩
  | some MeasurementType.connections =>
      ⟨last_second, [], process_buffer bufs.connections fromT limit, []⟩
  | some MeasurementType.memory =>
      ⟨last_second, [], [], process_buffer bufs.memory fromT limit⟩
  | none =>
      ⟨last_second, process_buffer bufs.responses fromT limit,
        process_buffer bufs.connections fromT limit,
        process_buffer bufs.memory fromT limit⟩

-- Self-contained facts about takeWhile and take as list prefixes.

theorem takeWhile_pref (p : StatsForPeriod → Bool) :
    ∀ l : List StatsForPeriod, l.takeWhile p <+: l := by
  intro l
  induction l with
  | nil => exact ⟨[], rfl⟩
  | cons a t ih =>
    by_cases hpa : p a = true
    · rw [List.takeWhile_cons_of_pos hpa]
      obtain ⟨r, hr⟩ := ih
      exact ⟨r, by rw [List.cons_append, hr]⟩
    · rw [List.takeWhile_cons_of_neg hpa]
      exact ⟨a :: t, rfl⟩

theorem take_pref (n : Nat) (l : List StatsForPeriod) : l.take n <+: l :=
  ⟨l.drop n, List.take_append_drop n l⟩

theorem mem_takeWhile_pred (p : StatsForPeriod → Bool) :
    ∀ (l : List StatsForPeriod) (x : StatsForPeriod),
      x ∈ l.takeWhile p → p x = true := by
  intro l
  induction l with
  | nil =>
    intro x hx
    simp [List.takeWhile] at hx
  | cons a t ih =>
    intro x hx
    by_cases hpa : p a = true
    · rw [List.takeWhile_cons_of_pos hpa] at hx
      rcases List.mem_cons.mp hx with h | h
      · rw [h]; exact hpa
      · exact ih x h
    · rw [List.takeWhile_cons_of_neg hpa] at hx
      cases hx

theorem pref_takeWhile (p : StatsForPeriod → Bool) :
    ∀ (q l : List StatsForPeriod), q <+: l → (∀ x ∈ q, p x = true) →
      q <+: l.takeWhile p := by
  intro q
  induction q with
  | nil => intro l _ _; exact ⟨l.takeWhile p, rfl⟩
  | cons a t ih =>
    intro l hq hall
    obtain ⟨r, rfl⟩ := hq
    have hpa : p a = true := hall a (List.mem_cons_self a t)
    rw [List.cons_append, List.takeWhile_cons_of_pos hpa]
    obtain ⟨r2, hr2⟩ := ih (t ++ r) ⟨r, rfl⟩
      (fun x hx => hall x (List.mem_cons_of_mem a hx))
    exact ⟨r2, by rw [List.cons_append, hr2]⟩

theorem pref_take :
    ∀ (q : List StatsForPeriod) (n : Nat) (l : List StatsForPeriod),
      q <+: l → q.length ≤ n → q <+: l.take n := by
  intro q
  induction q with
  | nil => intro n l _ _; exact ⟨l.take n, rfl⟩
  | cons a t ih =>
    intro n l hq hlen
    obtain ⟨r, rfl⟩ := hq
    cases n with
    | zero =>
      exfalso
      rw [List.length_cons] at hlen
      omega
    | succ m =>
      rw [List.cons_append, List.take_succ_cons]
      obtain ⟨r2, hr2⟩ := ih m (t ++ r) ⟨r, rfl⟩
        (by rw [List.length_cons] at hlen; omega)
      exact ⟨r2, by rw [List.cons_append, hr2]⟩

/-- Claim C9: the history operation returns exactly the longest newest-first
prefix of the selected buffer in which every entry passes the `from` filter,
truncated to at most `limit` entries: the selection is a prefix of the buffer,
every selected entry passes the filter, the limit is respected, and any
filter-passing prefix within the limit is a prefix of the selection; the
dispatch places `process_buffer` of the selected buffer (or of all three) into
the response. -/
theorem c9_history_longest_prefix :
    (∀ (buffer : List StatsForPeriod) (fromT : Option Int) (limit : Option Nat),
      ∃ sel : List StatsForPeriod,
        process_buffer buffer fromT limit = sel.map toResp ∧
        sel <+: buffer ∧
        (∀ e ∈ sel, historyPred fromT e = true) ∧
        (∀ n, limit = some n → sel.length ≤ n) ∧
        (∀ q, q <+: buffer → (∀ e ∈ q, historyPred fromT e = true) →
          (∀ n, limit = some n → q.length ≤ n) → q <+: sel)) ∧
    (∀ (bufs : Buffers) (last_second : Int) (fromT : Option Int) (limit : Option Nat),
      get_stats_history bufs last_second (some MeasurementType.times) fromT limit
        = ⟨last_second, process_buffer bufs.responses fromT limit, [], []⟩ ∧
      get_stats_history bufs last_second (some MeasurementType.connections) fromT limit
        = ⟨last_second, [], process_buffer bufs.connections fromT limit, []⟩ ∧
      get_stats_history bufs last_second (some MeasurementType.memory) fromT limit
        = ⟨last_second, [], [], process_buffer bufs.memory fromT limit⟩ ∧
      get_stats_history bufs last_second none fromT limit
        = ⟨last_second, process_buffer bufs.responses fromT limit,
            process_buffer bufs.connections fromT limit,
            process_buffer bufs.memory fromT limit⟩) := by
  constructor
  · intro buffer fromT limit
    refine ⟨limitList limit (buffer.takeWhile (historyPred fromT)), rfl, ?_, ?_, ?_, ?_⟩
    · cases limit with
      | none => exact takeWhile_pref (historyPred fromT) buffer
      | some n =>
        exact (take_pref n (buffer.takeWhile (historyPred fromT))).trans
          (takeWhile_pref (historyPred fromT) buffer)
    · intro e he
      cases limit with
      | none => exact mem_takeWhile_pred (historyPred fromT) buffer e he
      | some n =>
        have hmem : e ∈ buffer.takeWhile (historyPred fromT) :=
          (take_pref n (buffer.takeWhile (historyPred fromT))).subset he
        exact mem_takeWhile_pred (historyPred fromT) buffer e hmem
    · intro n hn
      cases limit with
      | none => exact absurd hn (by simp)
      | some m =>
        have hmn : m = n := by injection hn
        subst hmn
        show ((buffer.takeWhile (historyPred fromT)).take m).length ≤ m
        rw [List.length_take]
        exact Nat.min_le_left _ _
    · intro q hq hall hlim
      cases limit with
      | none => exact pref_takeWhile (historyPred fromT) q buffer hq hall
      | some n =>
        exact pref_take q n (buffer.takeWhile (historyPred fromT))
          (pref_takeWhile (historyPred fromT) q buffer hq hall) (hlim n rfl)
  · intro bufs last_second fromT limit
    exact ⟨rfl, rfl, rfl, rfl⟩

/-- Witness for C9: the characterization applied to a concrete two-entry
buffer with a `from` filter and a limit of one. -/
theorem c9_history_longest_prefix_witness :
    ∃ sel : List StatsForPeriod,
      process_buffer [StatsForPeriod.sdefault 5, StatsForPeriod.sdefault 3]
          (some 4) (some 1) = sel.map toResp ∧
      sel <+: [StatsForPeriod.sdefault 5, StatsForPeriod.sdefault 3] ∧
      (∀ e ∈ sel, historyPred (some 4) e = true) ∧
      (∀ n, (some 1 : Option Nat) = some n → sel.length ≤ n) ∧
      (∀ q, q <+: [StatsForPeriod.sdefault 5, StatsForPeriod.sdefault 3] →
        (∀ e ∈ q, historyPred (some 4) e = true) →
        (∀ n, (some 1 : Option Nat) = some n → q.length ≤ n) → q <+: sel) :=
  c9_history_longest_prefix.1 [StatsForPeriod.sdefault 5, StatsForPeriod.sdefault 3]
    (some 4) (some 1)
